import Mathlib

/-!
Verification of the metadata-schema core (`MetadataSchema.js`, given as
`src/unnamed/part_000`) and of the `Atmosphere` configuration container
(`src/packages/engine/Source/Scene/Atmosphere.js`).

The JavaScript object graph relevant to aliasing is modelled by an explicit
heap: a list of nodes addressed by position, with object nodes holding
field-name/address pairs.  Pure observable values are modelled by the tree
type `JSVal`, read out of the heap by a fuel-indexed denotation function.
Mapping objects (the raw `enums`/`classes` fields) are modelled with their
own enumerable properties and the enumerable properties reachable through
the prototype chain, so that the `for..in` / `hasOwnProperty` discipline of
the source is represented faithfully.
-/

namespace Cesium

/-- A heap address: JavaScript object identity for the extras payload. -/
abbrev Addr := Nat

/-- A pure JavaScript value tree, as observed by reading a structure out of
the heap.  Numbers are modelled as rationals. -/
inductive JSVal : Type
  | null
  | undefined
  | boolean (b : Bool)
  | num (q : ℚ)
  | str (s : String)
  | obj (fields : List (String × JSVal))

/-- One heap cell: either a primitive value or an object whose fields hold
addresses of other cells. -/
inductive Node : Type
  | nullN
  | undefN
  | boolN (b : Bool)
  | numN (q : ℚ)
  | strN (s : String)
  | objN (fields : List (String × Addr))
deriving DecidableEq

/-- The JavaScript heap: cell at address `a` is the `a`-th list entry. -/
abbrev Heap := List Node

/-- Reads the fields of an object node through an address evaluator,
failing if any field fails to evaluate. -/
def denoteListF (ev : Addr → Option JSVal) : List (String × Addr) → Option (List (String × JSVal))
  | [] => some []
  | (k, a) :: rest =>
    match ev a, denoteListF ev rest with
    | some v, some vs => some ((k, v) :: vs)
    | _, _ => none

/-- Fuel-indexed denotation of the structure rooted at address `a` in heap
`h`; `none` when the fuel runs out or an address is dangling. -/
def denoteF : Nat → Heap → Addr → Option JSVal
  | 0, _, _ => none
  | Nat.succ f, h, a =>
    match h[a]? with
    | none => none
    | some Node.nullN => some JSVal.null
    | some Node.undefN => some JSVal.undefined
    | some (Node.boolN b) => some (JSVal.boolean b)
    | some (Node.numN q) => some (JSVal.num q)
    | some (Node.strN s) => some (JSVal.str s)
    | some (Node.objN fields) => Option.map JSVal.obj (denoteListF (fun x => denoteF f h x) fields)

/-- Rebases every address held by a node by the offset `off`. -/
def shiftNode (off : Nat) : Node → Node
  | Node.objN fields => Node.objN (fields.map (fun p => (p.1, off + p.2)))
  | n => n

/-- Modelled from the spec: `clone(schema.extras, true)` calls `clone` of
`Core/clone.js`, which is not under `src/`.  The spec requires a deep copy:
"Deep-copy the `extras` payload so the constructed Schema holds no live
reference back into the caller's raw input."  The copy is modelled by
appending a rebased image of the current heap and returning the rebased
root, so the copy occupies only fresh addresses and points only at fresh
addresses. -/
def cloneDeep (h : Heap) (a : Addr) : Heap × Addr :=
  (h ++ h.map (shiftNode h.length), h.length + a)

/-- A JavaScript mapping object as consumed by the schema constructor: its
own enumerable properties plus the enumerable properties reachable through
the prototype chain. -/
structure JSMapObj (α : Type) : Type where
  own : List (String × α)
  proto : List (String × α)

/-- The keys of the object's own enumerable properties, in insertion order. -/
def ownKeys {α : Type} (m : JSMapObj α) : List String :=
  m.own.map Prod.fst

/-- The key sequence enumerated by `for (var k in m)`: own enumerable keys
first, then inherited enumerable keys not shadowed by an own key. -/
def forInKeys {α : Type} (m : JSMapObj α) : List String :=
  ownKeys m ++ (m.proto.map Prod.fst).filter (fun k => !(ownKeys m).contains k)

/-- `m.hasOwnProperty(k)`: whether `k` is an own property of `m`. -/
def hasOwnProperty {α : Type} (m : JSMapObj α) (k : String) : Bool :=
  (List.lookup k m.own).isSome

/-- Own keys of an optional mapping field; an absent field contributes no
keys, matching a `for..in` loop over `undefined` running zero times. -/
def ownKeysOpt {α : Type} : Option (JSMapObj α) → List String
  | none => []
  | some m => ownKeys m

/-- The failure conditions of schema construction.  `invalidArgument` is the
`Check.typeOf.object` failure; the other two are failures of the Enum and
Class units, which propagate unchanged. -/
inductive SchemaError : Type
  | invalidArgument
  | enumDefinitionInvalid (enumId : String)
  | unresolvedEnumReference (classId : String) (propertyId : String) (enumId : String)
deriving DecidableEq

/-- Modelled from the spec: the raw enum definition consumed by
`MetadataEnum.js`, which is not under `src/`.  The spec describes an enum as
"a named set of integer constants"; the definition may be structurally
invalid, modelled as the value list being absent. -/
structure RawEnumDef : Type where
  values : Option (List (String × Int))
deriving DecidableEq

/-- Modelled from the spec: the Enum unit of `MetadataEnum.js`, not under
`src/` — "a constructable unit that accepts a raw enum-definition object and
an identifier, and exposes that identifier."  `oid` is the JavaScript object
identity minted by `new`. -/
structure MetadataEnum : Type where
  oid : Nat
  id : String
  values : List (String × Int)
deriving DecidableEq

/-- Modelled from the spec: the `MetadataEnum` constructor.  It fails (and
the failure propagates) when the raw definition is structurally invalid. -/
def MetadataEnum.make (oid : Nat) (id : String) (raw : RawEnumDef) : Except SchemaError MetadataEnum :=
  match raw.values with
  | none => Except.error (SchemaError.enumDefinitionInvalid id)
  | some vs => Except.ok { oid := oid, id := id, values := vs }

/-- Modelled from the spec: one raw class property — "a set of property
definitions (each possibly referencing an Enum by identifier)". -/
structure RawProperty : Type where
  enumType : Option String
deriving DecidableEq

/-- Modelled from the spec: the raw class definition consumed by
`MetadataClass.js`, which is not under `src/`. -/
structure RawClassDef : Type where
  properties : List (String × RawProperty)
deriving DecidableEq

/-- Modelled from the spec: the Class unit of `MetadataClass.js`, not under
`src/` — it accepts "a raw class-definition object plus the resolved enum
table", resolves enum-typed properties eagerly, and keeps a non-owning
reference into the supplied enum mapping.  `oid` is the object identity
minted by `new`; `enums` is the mapping the class was constructed with. -/
structure MetadataClass : Type where
  oid : Nat
  id : String
  properties : List (String × Option MetadataEnum)
  enums : List (String × MetadataEnum)
deriving DecidableEq

/-- Modelled from the spec: eager resolution of enum-typed properties by
identifier lookup — "Fails if a class references an enum identifier absent
from the supplied enum mapping." -/
def resolveProperties (classId : String) (props : List (String × RawProperty))
    (enums : List (String × MetadataEnum)) : Except SchemaError (List (String × Option MetadataEnum)) :=
  match props with
  | [] => Except.ok []
  | (pname, rp) :: rest =>
    match rp.enumType with
    | none =>
      match resolveProperties classId rest enums with
      | Except.error e => Except.error e
      | Except.ok tl => Except.ok ((pname, none) :: tl)
    | some eid =>
      match List.lookup eid enums with
      | none => Except.error (SchemaError.unresolvedEnumReference classId pname eid)
      | some en =>
        match resolveProperties classId rest enums with
        | Except.error e => Except.error e
        | Except.ok tl => Except.ok ((pname, some en) :: tl)

/-- Modelled from the spec: the `MetadataClass` constructor, given the key
as identifier, the raw definition as body, and the entire enum mapping. -/
def MetadataClass.make (oid : Nat) (id : String) (raw : RawClassDef)
    (enums : List (String × MetadataEnum)) : Except SchemaError MetadataClass :=
  match resolveProperties id raw.properties enums with
  | Except.error e => Except.error e
  | Except.ok ps => Except.ok { oid := oid, id := id, properties := ps, enums := enums }

/-- The raw schema object: the five recognized fields of the input contract.
An absent field is `none`; `extras` is the address of the caller-owned
payload in the heap. -/
structure RawSchema : Type where
  enums : Option (JSMapObj RawEnumDef)
  classes : Option (JSMapObj RawClassDef)
  name : Option String
  description : Option String
  extras : Option Addr

/-- The raw constructor argument before validation: `null`, `undefined`, a
primitive, or a well-formed object. -/
inductive RawInput : Type
  | obj (s : RawSchema)
  | nullV
  | undefinedV
  | boolV (b : Bool)
  | numV (q : ℚ)
  | strV (s : String)

/-- Whether the constructor argument is an object, as validated by the
`Check.typeOf.object("schema", schema)` guard. -/
def RawInput.isObject : RawInput → Bool
  | RawInput.obj _ => true
  | _ => false

/-- The constructed schema: the fields assigned at the end of the
`MetadataSchema` constructor (`this._classes`, `this._enums`, `this._name`,
`this._description`, `this._extras`).  `_extrasAddr` is the address of the
cloned extras payload, `none` when `extras` was absent. -/
structure MetadataSchema : Type where
  _classes : List (String × MetadataClass)
  _enums : List (String × MetadataEnum)
  _name : Option String
  _description : Option String
  _extrasAddr : Option Addr

/-- The enum-table loop body of the constructor, iterating the `for..in`
key sequence `ks`.  The own-property lookup realizes both the
`schema.enums.hasOwnProperty(enumId)` guard and the `schema.enums[enumId]`
element access; `oid` is the object-identity counter advanced by `new`. -/
def buildEnumList (ks : List String) (m : JSMapObj RawEnumDef) (oid : Nat) :
    Except SchemaError (List (String × MetadataEnum) × Nat) :=
  match ks with
  | [] => Except.ok ([], oid)
  | k :: rest =>
    match List.lookup k m.own with
    | none => buildEnumList rest m oid
    | some rawDef =>
      match MetadataEnum.make oid k rawDef with
      | Except.error e => Except.error e
      | Except.ok e =>
        match buildEnumList rest m (oid + 1) with
        | Except.error e' => Except.error e'
        | Except.ok (tbl, oid') => Except.ok ((k, e) :: tbl, oid')

/-- The Enum Table Builder: the first loop of the constructor.  An absent
`enums` field yields the empty table. -/
def buildEnums (m : Option (JSMapObj RawEnumDef)) (oid : Nat) :
    Except SchemaError (List (String × MetadataEnum) × Nat) :=
  match m with
  | none => Except.ok ([], oid)
  | some mm => buildEnumList (forInKeys mm) mm oid

/-- The class-table loop body of the constructor; each class is constructed
with the entire enum mapping `enums`. -/
def buildClassList (ks : List String) (m : JSMapObj RawClassDef)
    (enums : List (String × MetadataEnum)) (oid : Nat) :
    Except SchemaError (List (String × MetadataClass) × Nat) :=
  match ks with
  | [] => Except.ok ([], oid)
  | k :: rest =>
    match List.lookup k m.own with
    | none => buildClassList rest m enums oid
    | some rawDef =>
      match MetadataClass.make oid k rawDef enums with
      | Except.error e => Except.error e
      | Except.ok c =>
        match buildClassList rest m enums (oid + 1) with
        | Except.error e' => Except.error e'
        | Except.ok (tbl, oid') => Except.ok ((k, c) :: tbl, oid')

/-- The Class Table Builder: the second loop of the constructor, run with
the already complete enum table. -/
def buildClasses (m : Option (JSMapObj RawClassDef)) (enums : List (String × MetadataEnum))
    (oid : Nat) : Except SchemaError (List (String × MetadataClass) × Nat) :=
  match m with
  | none => Except.ok ([], oid)
  | some mm => buildClassList (forInKeys mm) mm enums oid

/-- The `MetadataSchema` constructor.  The non-object branch models the
`Check.typeOf.object("schema", schema)` guard (`Core/Check.js` is not under
`src/`; per the spec it "fails with an `InvalidArgument` condition" when the
input is "not null, not a primitive" — i.e. on every non-object).  On an
object it runs the enum loop, then the class loop with the whole enum table,
then stores `name` and `description` verbatim and the deep-cloned extras. -/
def MetadataSchema.make (h : Heap) (oid : Nat) (input : RawInput) :
    Except SchemaError (MetadataSchema × Heap × Nat) :=
  match input with
  | RawInput.obj schema =>
    match buildEnums schema.enums oid with
    | Except.error e => Except.error e
    | Except.ok (eTbl, oid₁) =>
      match buildClasses schema.classes eTbl oid₁ with
      | Except.error e => Except.error e
      | Except.ok (cTbl, oid₂) =>
        match schema.extras with
        | none =>
          Except.ok ({ _classes := cTbl, _enums := eTbl, _name := schema.name,
                       _description := schema.description, _extrasAddr := none }, h, oid₂)
        | some a =>
          match cloneDeep h a with
          | (h', a') =>
            Except.ok ({ _classes := cTbl, _enums := eTbl, _name := schema.name,
                         _description := schema.description, _extrasAddr := some a' }, h', oid₂)
  | _ => Except.error SchemaError.invalidArgument

/-- The `classes` accessor of `MetadataSchema.prototype`. -/
def MetadataSchema.classes (s : MetadataSchema) : List (String × MetadataClass) :=
  s._classes

/-- The `enums` accessor of `MetadataSchema.prototype`. -/
def MetadataSchema.enums (s : MetadataSchema) : List (String × MetadataEnum) :=
  s._enums

/-- The `name` accessor of `MetadataSchema.prototype`. -/
def MetadataSchema.name (s : MetadataSchema) : Option String :=
  s._name

/-- The `description` accessor of `MetadataSchema.prototype`. -/
def MetadataSchema.description (s : MetadataSchema) : Option String :=
  s._description

/-- The `extras` accessor of `MetadataSchema.prototype`: the reference held
by the schema. -/
def MetadataSchema.extras (s : MetadataSchema) : Option Addr :=
  s._extrasAddr

/-- The value observed through `schema.extras` by reading the heap: an
absent payload is observed as `undefined`. -/
def MetadataSchema.extrasValue (s : MetadataSchema) (h : Heap) (fuel : Nat) : Option JSVal :=
  match s._extrasAddr with
  | none => some JSVal.undefined
  | some a => denoteF fuel h a

/-- One property descriptor of the `Object.defineProperties` call: its name
and whether a getter / a setter is supplied. -/
structure AccessorDescriptor : Type where
  name : String
  hasGet : Bool
  hasSet : Bool
deriving DecidableEq

/-- The descriptor table passed to
`Object.defineProperties(MetadataSchema.prototype, ...)`: five accessors,
each defined with a getter only. -/
def metadataSchemaPrototypeProperties : List AccessorDescriptor :=
  [{ name := "classes", hasGet := true, hasSet := false },
   { name := "enums", hasGet := true, hasSet := false },
   { name := "name", hasGet := true, hasSet := false },
   { name := "description", hasGet := true, hasSet := false },
   { name := "extras", hasGet := true, hasSet := false }]

/-- Well-formedness of a raw schema object: each present mapping has no
duplicate own keys, as is automatic for a real JavaScript object. -/
def nodupOwnKeys {α : Type} [DecidableEq α] : Option (JSMapObj α) → Bool
  | none => true
  | some m => decide (ownKeys m).Nodup

/-- A well-formed raw schema object. -/
def RawSchema.wellFormed (r : RawSchema) : Bool :=
  nodupOwnKeys r.enums && nodupOwnKeys r.classes

/-- Modelled from the spec: `Core/Cartesian3.js` is not under `src/`; the
spec treats such collaborators as "plain value containers" — the constructor
stores its three components. -/
structure Cartesian3 : Type where
  x : ℚ
  y : ℚ
  z : ℚ
deriving DecidableEq

/-- Modelled from the spec: `Core/Cartesian2.js` is not under `src/`; a
plain value container storing its two components. -/
structure Cartesian2 : Type where
  x : ℚ
  y : ℚ
deriving DecidableEq

/-- Modelled from the spec: `Scene/DynamicAtmosphereLightingType.js` is not
under `src/`; an enumeration of light sources with `NONE` meaning no
dynamic lighting. -/
inductive DynamicAtmosphereLightingType : Type
  | NONE
  | SCENE_LIGHT
  | SUNLIGHT
deriving DecidableEq

/-- The fields assigned by the `Atmosphere` constructor
(`src/packages/engine/Source/Scene/Atmosphere.js`). -/
structure Atmosphere : Type where
  lightIntensity : ℚ
  rayleighCoefficient : Cartesian3
  mieCoefficient : Cartesian3
  rayleighScaleHeight : ℚ
  mieScaleHeight : ℚ
  mieAnisotropy : ℚ
  hueShift : ℚ
  saturationShift : ℚ
  brightnessShift : ℚ
  dynamicLighting : DynamicAtmosphereLightingType
  lightingFadeRange : Cartesian2
  nightFadeRange : Cartesian2
  showGroundAtmosphere : Bool
deriving DecidableEq

/-- The `Atmosphere` constructor: every field is assigned its default. -/
def Atmosphere.new : Atmosphere :=
  { lightIntensity := 10.0
    rayleighCoefficient := { x := 5.5e-6, y := 13.0e-6, z := 28.4e-6 }
    mieCoefficient := { x := 21e-6, y := 21e-6, z := 21e-6 }
    rayleighScaleHeight := 10000.0
    mieScaleHeight := 3200.0
    mieAnisotropy := 0.9
    hueShift := 0.0
    saturationShift := 0.0
    brightnessShift := 0.0
    dynamicLighting := DynamicAtmosphereLightingType.NONE
    lightingFadeRange := { x := 1.0e7, y := 2.0e7 }
    nightFadeRange := { x := 1.0e7, y := 5.0e7 }
    showGroundAtmosphere := true }

end Cesium

namespace Cesium

/-! ### Concrete sample inputs used to exercise the theorems -/

/-- A raw enum mapping with a single own entry `colors`. -/
def sampleEnumsMap : JSMapObj RawEnumDef :=
  { own := [("colors", { values := some [("RED", 0), ("GREEN", 1)] })], proto := [] }

/-- A raw class mapping with a single own entry `tree`, whose `species`
property references the `colors` enum. -/
def sampleClassesMap : JSMapObj RawClassDef :=
  { own := [("tree", { properties := [("species", { enumType := some "colors" }),
                                      ("height", { enumType := none })] })],
    proto := [] }

/-- A well-formed raw schema with one enum and one class. -/
def sampleRaw : RawSchema :=
  { enums := some sampleEnumsMap, classes := some sampleClassesMap,
    name := some "vegetation", description := none, extras := none }

/-- The enum constructed from `sampleRaw` (object identity 0). -/
def sampleEnum : MetadataEnum :=
  { oid := 0, id := "colors", values := [("RED", 0), ("GREEN", 1)] }

/-- The class constructed from `sampleRaw` (object identity 1), holding the
entire enum mapping and the eagerly resolved `species` reference. -/
def sampleClass : MetadataClass :=
  { oid := 1, id := "tree",
    properties := [("species", some sampleEnum), ("height", none)],
    enums := [("colors", sampleEnum)] }

/-- The schema constructed from `sampleRaw`. -/
def sampleSchema : MetadataSchema :=
  { _classes := [("tree", sampleClass)], _enums := [("colors", sampleEnum)],
    _name := some "vegetation", _description := none, _extrasAddr := none }

/-- A caller heap holding an extras object `{x: 1}` at address 1. -/
def extrasHeap : Heap := [Node.numN 1, Node.objN [("x", 0)]]

/-- A raw schema whose `extras` field is the object at address 1 of
`extrasHeap`. -/
def extrasRaw : RawSchema :=
  { enums := none, classes := none, name := none, description := none, extras := some 1 }

/-- The heap after constructing a schema from `extrasRaw` on `extrasHeap`:
the caller cells plus the rebased copy. -/
def extrasHeapAfter : Heap :=
  [Node.numN 1, Node.objN [("x", 0)], Node.numN 1, Node.objN [("x", 2)]]

/-- The schema constructed from `extrasRaw`: its extras reference is the
fresh address 3. -/
def extrasSchema : MetadataSchema :=
  { _classes := [], _enums := [], _name := none, _description := none, _extrasAddr := some 3 }

/-- A raw class mapping whose `species` property references an enum
identifier that no enum mapping defines. -/
def badClassesMap : JSMapObj RawClassDef :=
  { own := [("tree", { properties := [("species", { enumType := some "missing" })] })],
    proto := [] }

/-- A raw schema whose single class references the non-existent enum
`missing`. -/
def badRaw : RawSchema :=
  { enums := none, classes := some badClassesMap, name := none, description := none,
    extras := none }

/-- A raw enum mapping with an own entry and an inherited (prototype-chain)
entry. -/
def protoEnumsMap : JSMapObj RawEnumDef :=
  { own := [("colors", { values := some [("RED", 0)] })],
    proto := [("inheritedEnum", { values := some [] })] }

/-- A raw class mapping with an own entry and an inherited entry. -/
def protoClassesMap : JSMapObj RawClassDef :=
  { own := [("tree", { properties := [] })],
    proto := [("inheritedClass", { properties := [] })] }

/-- A raw schema whose mappings carry inherited enumerable properties. -/
def protoRaw : RawSchema :=
  { enums := some protoEnumsMap, classes := some protoClassesMap, name := none,
    description := none, extras := none }

/-- A caller heap holding two structurally identical extras payloads at
addresses 0 and 1. -/
def twinHeap : Heap := [Node.numN 7, Node.numN 7]

/-- First raw schema of the round-trip experiment: extras at address 0. -/
def twinRaw1 : RawSchema :=
  { enums := some sampleEnumsMap, classes := some sampleClassesMap, name := none,
    description := none, extras := some 0 }

/-- Second raw schema of the round-trip experiment: structurally identical
to `twinRaw1` but referencing the other, equal payload at address 1. -/
def twinRaw2 : RawSchema :=
  { enums := some sampleEnumsMap, classes := some sampleClassesMap, name := none,
    description := none, extras := some 1 }

/-- The schema of the first round-trip run (object identities 0 and 1,
extras copied to address 2). -/
def twinSchema1 : MetadataSchema :=
  { _classes := [("tree", sampleClass)], _enums := [("colors", sampleEnum)],
    _name := none, _description := none, _extrasAddr := some 2 }

/-- The enum of the second round-trip run: same content, fresh identity. -/
def twinEnum2 : MetadataEnum :=
  { oid := 2, id := "colors", values := [("RED", 0), ("GREEN", 1)] }

/-- The class of the second round-trip run: same content, fresh identity. -/
def twinClass2 : MetadataClass :=
  { oid := 3, id := "tree",
    properties := [("species", some twinEnum2), ("height", none)],
    enums := [("colors", twinEnum2)] }

/-- The schema of the second round-trip run. -/
def twinSchema2 : MetadataSchema :=
  { _classes := [("tree", twinClass2)], _enums := [("colors", twinEnum2)],
    _name := none, _description := none, _extrasAddr := some 5 }

/-- The heap after the first round-trip run. -/
def twinHeap1 : Heap :=
  [Node.numN 7, Node.numN 7, Node.numN 7, Node.numN 7]

/-- The heap after the second round-trip run. -/
def twinHeap2 : Heap :=
  [Node.numN 7, Node.numN 7, Node.numN 7, Node.numN 7,
   Node.numN 7, Node.numN 7, Node.numN 7, Node.numN 7]

/-- The enum constructed from `protoRaw` (only the own key produces one). -/
def protoEnum : MetadataEnum := { oid := 0, id := "colors", values := [("RED", 0)] }

/-- The class constructed from `protoRaw` (only the own key produces one). -/
def protoClass : MetadataClass :=
  { oid := 1, id := "tree", properties := [], enums := [("colors", protoEnum)] }

/-- The schema constructed from `protoRaw`: inherited keys contribute no
entries. -/
def protoSchema : MetadataSchema :=
  { _classes := [("tree", protoClass)], _enums := [("colors", protoEnum)],
    _name := none, _description := none, _extrasAddr := none }

end Cesium

namespace Cesium

/-! ### Association-list lookup lemmas -/

theorem lookup_isSome_of_mem_keys {α : Type} :
    ∀ (l : List (String × α)) (k : String), k ∈ l.map Prod.fst → (List.lookup k l).isSome = true := by
  intro l
  induction l with
  | nil => intro k hk; simp at hk
  | cons p tl ih =>
    obtain ⟨k₁, v₁⟩ := p
    intro k hk
    rw [List.map_cons, List.mem_cons] at hk
    by_cases hkp : k = k₁
    · have hbeq : (k == k₁) = true := by simpa using hkp
      simp [List.lookup, hbeq]
    · have hbeq : (k == k₁) = false := by simpa using hkp
      have hk' : k ∈ tl.map Prod.fst := by
        rcases hk with h | h
        · exact absurd h hkp
        · exact h
      simpa [List.lookup, hbeq] using ih k hk'

theorem lookup_eq_none_of_not_mem_keys {α : Type} :
    ∀ (l : List (String × α)) (k : String), k ∉ l.map Prod.fst → List.lookup k l = none := by
  intro l
  induction l with
  | nil => intro k _; rfl
  | cons p tl ih =>
    obtain ⟨k₁, v₁⟩ := p
    intro k hk
    rw [List.map_cons, List.mem_cons] at hk
    push_neg at hk
    obtain ⟨hk1, hk2⟩ := hk
    have hbeq : (k == k₁) = false := by simpa using hk1
    simpa [List.lookup, hbeq] using ih k hk2

theorem filter_forInKeys {α : Type} (m : JSMapObj α) :
    (forInKeys m).filter (fun k => hasOwnProperty m k) = ownKeys m := by
  rw [forInKeys, List.filter_append]
  have h1 : (ownKeys m).filter (fun k => hasOwnProperty m k) = ownKeys m := by
    apply List.filter_eq_self.mpr
    intro k hk
    show hasOwnProperty m k = true
    exact lookup_isSome_of_mem_keys m.own k hk
  have h2 : ((m.proto.map Prod.fst).filter (fun k => !(ownKeys m).contains k)).filter
      (fun k => hasOwnProperty m k) = [] := by
    rw [List.filter_eq_nil_iff]
    intro k hk
    rw [List.mem_filter] at hk
    obtain ⟨_, hnc⟩ := hk
    have hnm : k ∉ m.own.map Prod.fst := by
      intro hmem
      have hcm : (ownKeys m).contains k = true := by
        simpa [ownKeys] using hmem
      rw [hcm] at hnc
      cases hnc
    have hnone : List.lookup k m.own = none := lookup_eq_none_of_not_mem_keys m.own k hnm
    simp [hasOwnProperty, hnone]
  rw [h1, h2, List.append_nil]

/-! ### Constructor unit lemmas -/

theorem metadataEnum_make_ok {oid : Nat} {id : String} {raw : RawEnumDef} {e : MetadataEnum}
    (h : MetadataEnum.make oid id raw = Except.ok e) : e.oid = oid ∧ e.id = id := by
  cases hv : raw.values with
  | none => simp [MetadataEnum.make, hv] at h
  | some vs =>
    simp [MetadataEnum.make, hv] at h
    subst h
    exact ⟨rfl, rfl⟩

theorem resolveProperties_spec {classId : String} {enums : List (String × MetadataEnum)} :
    ∀ (props : List (String × RawProperty)) (ps : List (String × Option MetadataEnum)),
      resolveProperties classId props enums = Except.ok ps →
      ∀ pn rp, (pn, rp) ∈ props → ∀ eid, rp.enumType = some eid →
        ∃ en, List.lookup eid enums = some en ∧ (pn, some en) ∈ ps := by
  intro props
  induction props with
  | nil => intro ps _ pn rp hmem; simp at hmem
  | cons q rest ih =>
    obtain ⟨pn₀, rp₀⟩ := q
    intro ps hok pn rp hmem eid het
    cases hty : rp₀.enumType with
    | none =>
      rw [resolveProperties, hty] at hok
      cases hrec : resolveProperties classId rest enums with
      | error e => rw [hrec] at hok; simp at hok
      | ok tl =>
        rw [hrec] at hok
        simp at hok
        subst hok
        rcases List.mem_cons.mp hmem with hh | ht
        · exfalso
          have : rp = rp₀ := congrArg Prod.snd hh
          rw [this, hty] at het
          cases het
        · obtain ⟨en, hen, hmem'⟩ := ih tl hrec pn rp ht eid het
          exact ⟨en, hen, List.mem_cons_of_mem _ hmem'⟩
    | some eid₀ =>
      simp only [resolveProperties, hty] at hok
      cases hlk : List.lookup eid₀ enums with
      | none => rw [hlk] at hok; simp at hok
      | some en₀ =>
        rw [hlk] at hok
        cases hrec : resolveProperties classId rest enums with
        | error e => rw [hrec] at hok; simp at hok
        | ok tl =>
          rw [hrec] at hok
          simp at hok
          subst hok
          rcases List.mem_cons.mp hmem with hh | ht
          · have hpn : pn = pn₀ := congrArg Prod.fst hh
            have hrp : rp = rp₀ := congrArg Prod.snd hh
            rw [hrp, hty] at het
            cases het
            refine ⟨en₀, hlk, ?_⟩
            rw [hpn]
            exact List.mem_cons_self _ _
          · obtain ⟨en, hen, hmem'⟩ := ih tl hrec pn rp ht eid het
            exact ⟨en, hen, List.mem_cons_of_mem _ hmem'⟩

theorem metadataClass_make_ok {oid : Nat} {id : String} {raw : RawClassDef}
    {enums : List (String × MetadataEnum)} {c : MetadataClass}
    (h : MetadataClass.make oid id raw enums = Except.ok c) :
    c.oid = oid ∧ c.id = id ∧ c.enums = enums
    ∧ (∀ pn rp, (pn, rp) ∈ raw.properties → ∀ eid, rp.enumType = some eid →
        ∃ en, List.lookup eid enums = some en ∧ (pn, some en) ∈ c.properties) := by
  cases hres : resolveProperties id raw.properties enums with
  | error e => rw [MetadataClass.make, hres] at h; simp at h
  | ok ps =>
    rw [MetadataClass.make, hres] at h
    simp at h
    subst h
    refine ⟨rfl, rfl, rfl, ?_⟩
    intro pn rp hmem eid het
    exact resolveProperties_spec raw.properties ps hres pn rp hmem eid het

end Cesium

namespace Cesium

/-! ### Builder loop lemmas -/

theorem buildEnumList_ok {m : JSMapObj RawEnumDef} :
    ∀ (ks : List String) (oid : Nat) (tbl : List (String × MetadataEnum)) (oid' : Nat),
      buildEnumList ks m oid = Except.ok (tbl, oid') →
      tbl.map Prod.fst = ks.filter (fun k => hasOwnProperty m k)
      ∧ oid' = oid + tbl.length
      ∧ (∀ p ∈ tbl, oid ≤ p.2.oid ∧ p.2.oid < oid') := by
  intro ks
  induction ks with
  | nil =>
    intro oid tbl oid' hok
    simp only [buildEnumList] at hok
    simp at hok
    obtain ⟨h1, h2⟩ := hok
    subst h1
    subst h2
    simp
  | cons k rest ih =>
    intro oid tbl oid' hok
    simp only [buildEnumList] at hok
    cases hlk : List.lookup k m.own with
    | none =>
      simp only [hlk] at hok
      have hp : hasOwnProperty m k = false := by simp [hasOwnProperty, hlk]
      obtain ⟨ikeys, ilen, irange⟩ := ih oid tbl oid' hok
      refine ⟨?_, ilen, irange⟩
      rw [List.filter_cons]
      simp [hp, ikeys]
    | some d =>
      simp only [hlk] at hok
      cases hmk : MetadataEnum.make oid k d with
      | error e => simp only [hmk] at hok; simp at hok
      | ok e =>
        simp only [hmk] at hok
        cases hrec : buildEnumList rest m (oid + 1) with
        | error e' => simp only [hrec] at hok; simp at hok
        | ok pr =>
          obtain ⟨tbl₁, o₁⟩ := pr
          simp only [hrec] at hok
          simp at hok
          obtain ⟨htbl, hoid⟩ := hok
          subst htbl
          subst hoid
          obtain ⟨ikeys, ilen, irange⟩ := ih (oid + 1) tbl₁ o₁ hrec
          have hp : hasOwnProperty m k = true := by simp [hasOwnProperty, hlk]
          have heoid : e.oid = oid := (metadataEnum_make_ok hmk).1
          refine ⟨?_, ?_, ?_⟩
          · rw [List.filter_cons]
            simp [hp, ikeys]
          · simp
            omega
          · intro p hp'
            rcases List.mem_cons.mp hp' with hh | ht
            · subst hh
              simp only [heoid]
              omega
            · have := irange p ht
              omega

theorem buildClassList_ok {m : JSMapObj RawClassDef} {enums : List (String × MetadataEnum)} :
    ∀ (ks : List String) (oid : Nat) (tbl : List (String × MetadataClass)) (oid' : Nat),
      buildClassList ks m enums oid = Except.ok (tbl, oid') →
      tbl.map Prod.fst = ks.filter (fun k => hasOwnProperty m k)
      ∧ oid' = oid + tbl.length
      ∧ (∀ p ∈ tbl, oid ≤ p.2.oid ∧ p.2.oid < oid')
      ∧ (∀ p ∈ tbl, p.2.enums = enums) := by
  intro ks
  induction ks with
  | nil =>
    intro oid tbl oid' hok
    simp only [buildClassList] at hok
    simp at hok
    obtain ⟨h1, h2⟩ := hok
    subst h1
    subst h2
    simp
  | cons k rest ih =>
    intro oid tbl oid' hok
    simp only [buildClassList] at hok
    cases hlk : List.lookup k m.own with
    | none =>
      simp only [hlk] at hok
      have hp : hasOwnProperty m k = false := by simp [hasOwnProperty, hlk]
      obtain ⟨ikeys, ilen, irange, ienv⟩ := ih oid tbl oid' hok
      refine ⟨?_, ilen, irange, ienv⟩
      rw [List.filter_cons]
      simp [hp, ikeys]
    | some d =>
      simp only [hlk] at hok
      cases hmk : MetadataClass.make oid k d enums with
      | error e => simp only [hmk] at hok; simp at hok
      | ok c =>
        simp only [hmk] at hok
        cases hrec : buildClassList rest m enums (oid + 1) with
        | error e' => simp only [hrec] at hok; simp at hok
        | ok pr =>
          obtain ⟨tbl₁, o₁⟩ := pr
          simp only [hrec] at hok
          simp at hok
          obtain ⟨htbl, hoid⟩ := hok
          subst htbl
          subst hoid
          obtain ⟨ikeys, ilen, irange, ienv⟩ := ih (oid + 1) tbl₁ o₁ hrec
          have hp : hasOwnProperty m k = true := by simp [hasOwnProperty, hlk]
          have hcoid : c.oid = oid := (metadataClass_make_ok hmk).1
          have hcenv : c.enums = enums := (metadataClass_make_ok hmk).2.2.1
          refine ⟨?_, ?_, ?_, ?_⟩
          · rw [List.filter_cons]
            simp [hp, ikeys]
          · simp
            omega
          · intro p hp'
            rcases List.mem_cons.mp hp' with hh | ht
            · subst hh
              simp only [hcoid]
              omega
            · have := irange p ht
              omega
          · intro p hp'
            rcases List.mem_cons.mp hp' with hh | ht
            · subst hh
              exact hcenv
            · exact ienv p ht

theorem buildEnums_ok {om : Option (JSMapObj RawEnumDef)} {oid : Nat}
    {tbl : List (String × MetadataEnum)} {oid' : Nat}
    (hok : buildEnums om oid = Except.ok (tbl, oid')) :
    tbl.map Prod.fst = ownKeysOpt om
    ∧ oid' = oid + tbl.length
    ∧ (∀ p ∈ tbl, oid ≤ p.2.oid ∧ p.2.oid < oid') := by
  cases om with
  | none =>
    simp only [buildEnums] at hok
    simp at hok
    obtain ⟨h1, h2⟩ := hok
    subst h1
    subst h2
    simp [ownKeysOpt]
  | some mm =>
    simp only [buildEnums] at hok
    obtain ⟨hkeys, hlen, hrange⟩ := buildEnumList_ok (forInKeys mm) oid tbl oid' hok
    refine ⟨?_, hlen, hrange⟩
    rw [hkeys, filter_forInKeys]
    simp [ownKeysOpt]

theorem buildClasses_ok {om : Option (JSMapObj RawClassDef)} {enums : List (String × MetadataEnum)}
    {oid : Nat} {tbl : List (String × MetadataClass)} {oid' : Nat}
    (hok : buildClasses om enums oid = Except.ok (tbl, oid')) :
    tbl.map Prod.fst = ownKeysOpt om
    ∧ oid' = oid + tbl.length
    ∧ (∀ p ∈ tbl, oid ≤ p.2.oid ∧ p.2.oid < oid')
    ∧ (∀ p ∈ tbl, p.2.enums = enums) := by
  cases om with
  | none =>
    simp only [buildClasses] at hok
    simp at hok
    obtain ⟨h1, h2⟩ := hok
    subst h1
    subst h2
    simp [ownKeysOpt]
  | some mm =>
    simp only [buildClasses] at hok
    obtain ⟨hkeys, hlen, hrange, henv⟩ := buildClassList_ok (forInKeys mm) oid tbl oid' hok
    refine ⟨?_, hlen, hrange, henv⟩
    rw [hkeys, filter_forInKeys]
    simp [ownKeysOpt]

/-! ### Constructor decomposition -/

theorem make_ok_elim {h : Heap} {oid : Nat} {r : RawSchema} {s : MetadataSchema}
    {h' : Heap} {oid' : Nat}
    (hok : MetadataSchema.make h oid (RawInput.obj r) = Except.ok (s, h', oid')) :
    buildEnums r.enums oid = Except.ok (s._enums, oid + s._enums.length)
    ∧ buildClasses r.classes s._enums (oid + s._enums.length) = Except.ok (s._classes, oid')
    ∧ s._name = r.name ∧ s._description = r.description
    ∧ ((r.extras = none ∧ s._extrasAddr = none ∧ h' = h)
       ∨ (∃ a, r.extras = some a ∧ s._extrasAddr = some (h.length + a)
            ∧ h' = h ++ h.map (shiftNode h.length))) := by
  simp only [MetadataSchema.make] at hok
  cases he : buildEnums r.enums oid with
  | error e => simp only [he] at hok; simp at hok
  | ok pe =>
    obtain ⟨eTbl, oid₁⟩ := pe
    simp only [he] at hok
    cases hc : buildClasses r.classes eTbl oid₁ with
    | error e => simp only [hc] at hok; simp at hok
    | ok pc =>
      obtain ⟨cTbl, oid₂⟩ := pc
      simp only [hc] at hok
      have hlen : oid₁ = oid + eTbl.length := (buildEnums_ok he).2.1
      subst hlen
      cases hex : r.extras with
      | none =>
        simp only [hex] at hok
        simp at hok
        obtain ⟨hs, hh, ho⟩ := hok
        subst hs
        subst hh
        subst ho
        exact ⟨rfl, hc, rfl, rfl, Or.inl ⟨rfl, rfl, rfl⟩⟩
      | some a =>
        simp only [hex, cloneDeep] at hok
        simp at hok
        obtain ⟨hs, hh, ho⟩ := hok
        subst hs
        subst hh
        subst ho
        exact ⟨rfl, hc, rfl, rfl, Or.inr ⟨a, rfl, rfl, rfl⟩⟩

theorem make_oid_range {h : Heap} {oid : Nat} {r : RawSchema} {s : MetadataSchema}
    {h' : Heap} {oid' : Nat}
    (hok : MetadataSchema.make h oid (RawInput.obj r) = Except.ok (s, h', oid')) :
    oid ≤ oid'
    ∧ (∀ p ∈ s._enums, oid ≤ p.2.oid ∧ p.2.oid < oid')
    ∧ (∀ p ∈ s._classes, oid ≤ p.2.oid ∧ p.2.oid < oid') := by
  obtain ⟨he, hc, -, -, -⟩ := make_ok_elim hok
  obtain ⟨-, -, herange⟩ := buildEnums_ok he
  obtain ⟨-, hclen, hcrange, -⟩ := buildClasses_ok hc
  refine ⟨by omega, ?_, ?_⟩
  · intro p hp
    have := herange p hp
    omega
  · intro p hp
    have := hcrange p hp
    omega

end Cesium

namespace Cesium

/-! ### Heap denotation lemmas -/

theorem denoteListF_congr_on {ev₁ ev₂ : Addr → Option JSVal} {t : Nat}
    (hev : ∀ a, t ≤ a → ev₁ a = ev₂ a) :
    ∀ l : List (String × Addr), (∀ p ∈ l, t ≤ p.2) → denoteListF ev₁ l = denoteListF ev₂ l := by
  intro l
  induction l with
  | nil => intro _; rfl
  | cons p rest ih =>
    obtain ⟨k, a⟩ := p
    intro hl
    have ha : t ≤ a := hl (k, a) (List.mem_cons_self _ _)
    have hr : ∀ q ∈ rest, t ≤ q.2 := fun q hq => hl q (List.mem_cons_of_mem _ hq)
    simp only [denoteListF]
    rw [hev a ha, ih hr]

theorem denote_agree {t : Nat} {h₁ h₂ : Heap}
    (hag : ∀ b, t ≤ b → h₁[b]? = h₂[b]?)
    (hcl : ∀ b flds, t ≤ b → h₁[b]? = some (Node.objN flds) → ∀ p ∈ flds, t ≤ p.2) :
    ∀ (f : Nat) (a : Addr), t ≤ a → denoteF f h₁ a = denoteF f h₂ a := by
  intro f
  induction f with
  | zero => intro a _; rfl
  | succ f ih =>
    intro a ha
    have hget : h₂[a]? = h₁[a]? := (hag a ha).symm
    simp only [denoteF, hget]
    cases hnode : h₁[a]? with
    | none => rfl
    | some n =>
      cases n with
      | nullN => rfl
      | undefN => rfl
      | boolN b => rfl
      | numN q => rfl
      | strN s => rfl
      | objN flds =>
        have hf : ∀ p ∈ flds, t ≤ p.2 := hcl a flds ha hnode
        show Option.map JSVal.obj (denoteListF (fun x => denoteF f h₁ x) flds)
            = Option.map JSVal.obj (denoteListF (fun x => denoteF f h₂ x) flds)
        rw [denoteListF_congr_on ih flds hf]

theorem denoteListF_mono {ev₁ ev₂ : Addr → Option JSVal}
    (hmono : ∀ a v, ev₁ a = some v → ev₂ a = some v) :
    ∀ (l : List (String × Addr)) (vs : List (String × JSVal)),
      denoteListF ev₁ l = some vs → denoteListF ev₂ l = some vs := by
  intro l
  induction l with
  | nil => intro vs hv; exact hv
  | cons p rest ih =>
    obtain ⟨k, a⟩ := p
    intro vs hv
    simp only [denoteListF] at hv ⊢
    cases hva : ev₁ a with
    | none =>
      simp only [hva] at hv
      exact Option.noConfusion hv
    | some v =>
      simp only [hva] at hv
      cases hrest : denoteListF ev₁ rest with
      | none =>
        simp only [hrest] at hv
        exact Option.noConfusion hv
      | some vs₁ =>
        simp only [hrest] at hv
        have h2 : ev₂ a = some v := hmono a v hva
        have h3 : denoteListF ev₂ rest = some vs₁ := ih vs₁ hrest
        simp only [h2, h3]
        exact hv

theorem denote_append {e : Heap} :
    ∀ (f : Nat) (h : Heap) (a : Addr) (v : JSVal),
      denoteF f h a = some v → denoteF f (h ++ e) a = some v := by
  intro f
  induction f with
  | zero => intro h a v hv; exact absurd hv (by simp [denoteF])
  | succ f ih =>
    intro h a v hv
    simp only [denoteF] at hv ⊢
    cases hnode : h[a]? with
    | none =>
      simp only [hnode] at hv
      exact Option.noConfusion hv
    | some n =>
      have halen : a < h.length := by
        by_contra hcon
        push_neg at hcon
        rw [List.getElem?_eq_none hcon] at hnode
        cases hnode
      have happ : (h ++ e)[a]? = h[a]? := List.getElem?_append_left halen
      rw [happ, hnode]
      simp only [hnode] at hv
      cases n with
      | nullN => exact hv
      | undefN => exact hv
      | boolN b => exact hv
      | numN q => exact hv
      | strN s => exact hv
      | objN flds =>
        rcases Option.map_eq_some'.mp hv with ⟨vs, hvs, hv'⟩
        show Option.map JSVal.obj (denoteListF (fun x => denoteF f (h ++ e) x) flds) = some v
        rw [denoteListF_mono (fun a' v' hv'' => ih h a' v' hv'') flds vs hvs]
        simp [hv']

theorem denoteListF_shift {ev₁ ev₂ : Addr → Option JSVal} {len : Nat}
    (hp : ∀ a, ev₁ (len + a) = ev₂ a) :
    ∀ l : List (String × Addr),
      denoteListF ev₁ (l.map (fun p => (p.1, len + p.2))) = denoteListF ev₂ l := by
  intro l
  induction l with
  | nil => rfl
  | cons p rest ih =>
    obtain ⟨k, a⟩ := p
    simp only [List.map_cons, denoteListF]
    rw [hp a, ih]

theorem clone_denote (h : Heap) :
    ∀ (f : Nat) (a : Addr),
      denoteF f (h ++ h.map (shiftNode h.length)) (h.length + a) = denoteF f h a := by
  intro f
  induction f with
  | zero => intro a; rfl
  | succ f ih =>
    intro a
    have hidx : h.length + a - h.length = a := by omega
    have hget : (h ++ h.map (shiftNode h.length))[h.length + a]?
        = (h[a]?).map (shiftNode h.length) := by
      rw [List.getElem?_append_right (by omega : h.length ≤ h.length + a), hidx,
        List.getElem?_map]
    simp only [denoteF, hget]
    cases hnode : h[a]? with
    | none => rfl
    | some n =>
      cases n with
      | nullN => rfl
      | undefN => rfl
      | boolN b => rfl
      | numN q => rfl
      | strN s => rfl
      | objN flds =>
        simp only [Option.map_some', shiftNode]
        rw [denoteListF_shift ih flds]

theorem clone_closed {h : Heap} {b : Addr} {flds : List (String × Addr)}
    (hb : h.length ≤ b)
    (hget : (h ++ h.map (shiftNode h.length))[b]? = some (Node.objN flds)) :
    ∀ p ∈ flds, h.length ≤ p.2 := by
  rw [List.getElem?_append_right hb, List.getElem?_map] at hget
  cases hn : h[b - h.length]? with
  | none => rw [hn] at hget; cases hget
  | some n =>
    rw [hn] at hget
    simp only [Option.map_some'] at hget
    cases n with
    | nullN => simp [shiftNode] at hget
    | undefN => simp [shiftNode] at hget
    | boolN b' => simp [shiftNode] at hget
    | numN q => simp [shiftNode] at hget
    | strN s => simp [shiftNode] at hget
    | objN flds₀ =>
      simp only [shiftNode, Option.some_inj, Node.objN.injEq] at hget
      intro p hp
      rw [← hget] at hp
      obtain ⟨q, hq, hpq⟩ := List.mem_map.mp hp
      rw [← hpq]
      simp

theorem set_agree {h : Heap} {a : Addr} {n : Node} {t : Nat} (ha : a < t) :
    ∀ b, t ≤ b → (h.set a n)[b]? = h[b]? := by
  intro b hb
  have hne : a ≠ b := Nat.ne_of_lt (Nat.lt_of_lt_of_le ha hb)
  exact List.getElem?_set_ne hne

end Cesium

namespace Cesium

/-! ### Claim theorems -/

/-- C10: A newly constructed Atmosphere always has the same default field
values: `lightIntensity` 10.0, `rayleighScaleHeight` 10000.0,
`mieScaleHeight` 3200.0, `mieAnisotropy` 0.9, `hueShift`, `saturationShift`
and `brightnessShift` all 0.0, `dynamicLighting` equal to
`DynamicAtmosphereLightingType.NONE`, `showGroundAtmosphere` true,
`lightingFadeRange` equal to `Cartesian2(1.0e7, 2.0e7)`, and
`nightFadeRange` equal to `Cartesian2(1.0e7, 5.0e7)`. -/
theorem atmosphere_default_values :
    Atmosphere.new.lightIntensity = 10.0
    ∧ Atmosphere.new.rayleighScaleHeight = 10000.0
    ∧ Atmosphere.new.mieScaleHeight = 3200.0
    ∧ Atmosphere.new.mieAnisotropy = 0.9
    ∧ Atmosphere.new.hueShift = 0.0
    ∧ Atmosphere.new.saturationShift = 0.0
    ∧ Atmosphere.new.brightnessShift = 0.0
    ∧ Atmosphere.new.dynamicLighting = DynamicAtmosphereLightingType.NONE
    ∧ Atmosphere.new.showGroundAtmosphere = true
    ∧ Atmosphere.new.lightingFadeRange = { x := 1.0e7, y := 2.0e7 }
    ∧ Atmosphere.new.nightFadeRange = { x := 1.0e7, y := 5.0e7 } :=
  ⟨rfl, rfl, rfl, rfl, rfl, rfl, rfl, rfl, rfl, rfl, rfl⟩

/-- C7: Constructing a Schema from the empty object `{}` succeeds, with an
empty classes mapping, an empty enums mapping, absent name, description and
extras, and leaves the heap and the identity counter untouched. -/
theorem metadataSchema_empty_object (h : Heap) (oid : Nat) :
    MetadataSchema.make h oid (RawInput.obj
        { enums := none, classes := none, name := none, description := none, extras := none })
      = Except.ok ({ _classes := [], _enums := [], _name := none, _description := none,
                     _extrasAddr := none }, h, oid) := rfl

/-- C6: The prototype exposes exactly the five accessors `classes`, `enums`,
`name`, `description`, `extras`, each with a getter and no setter, and each
getter returns exactly the field stored at construction time. -/
theorem metadataSchema_readonly_accessors :
    metadataSchemaPrototypeProperties.map AccessorDescriptor.name
      = ["classes", "enums", "name", "description", "extras"]
    ∧ metadataSchemaPrototypeProperties.all (fun d => d.hasGet && !d.hasSet) = true
    ∧ (∀ s : MetadataSchema, s.classes = s._classes ∧ s.enums = s._enums
        ∧ s.name = s._name ∧ s.description = s._description ∧ s.extras = s._extrasAddr) :=
  ⟨rfl, rfl, fun _ => ⟨rfl, rfl, rfl, rfl, rfl⟩⟩

/-- C4: For every input that is null, undefined, or a non-object primitive,
construction fails with the InvalidArgument condition and no schema is
returned. -/
theorem metadataSchema_rejects_non_object (h : Heap) (oid : Nat) (input : RawInput)
    (hno : input.isObject = false) :
    MetadataSchema.make h oid input = Except.error SchemaError.invalidArgument := by
  cases input with
  | obj s => simp [RawInput.isObject] at hno
  | nullV => rfl
  | undefinedV => rfl
  | boolV b => rfl
  | numV q => rfl
  | strV s => rfl

/-- Witness for C4 at the concrete input `null`. -/
theorem metadataSchema_rejects_non_object_witness :
    RawInput.isObject RawInput.nullV = false
    ∧ MetadataSchema.make [] 0 RawInput.nullV = Except.error SchemaError.invalidArgument :=
  ⟨rfl, metadataSchema_rejects_non_object [] 0 RawInput.nullV rfl⟩

/-- C5: A failure raised by the Enum Table Builder, or by the Class Table
Builder run after it, surfaces unchanged as the result of schema
construction; the error result carries no schema. -/
theorem metadataSchema_failure_propagation (h : Heap) (oid : Nat) (r : RawSchema) :
    (∀ e, buildEnums r.enums oid = Except.error e →
      MetadataSchema.make h oid (RawInput.obj r) = Except.error e)
    ∧ (∀ eTbl oid₁ e, buildEnums r.enums oid = Except.ok (eTbl, oid₁) →
        buildClasses r.classes eTbl oid₁ = Except.error e →
        MetadataSchema.make h oid (RawInput.obj r) = Except.error e) := by
  constructor
  · intro e he
    simp only [MetadataSchema.make, he]
  · intro eTbl oid₁ e he hc
    simp only [MetadataSchema.make, he, hc]

/-- Witness for C5: a class referencing the non-existent enum `missing`
fails with the propagated unresolved-reference error. -/
theorem metadataSchema_failure_propagation_witness :
    buildEnums badRaw.enums 0 = Except.ok ([], 0)
    ∧ buildClasses badRaw.classes [] 0
        = Except.error (SchemaError.unresolvedEnumReference "tree" "species" "missing")
    ∧ MetadataSchema.make [] 0 (RawInput.obj badRaw)
        = Except.error (SchemaError.unresolvedEnumReference "tree" "species" "missing") :=
  ⟨rfl, rfl, (metadataSchema_failure_propagation [] 0 badRaw).2 [] 0
    (SchemaError.unresolvedEnumReference "tree" "species" "missing") rfl rfl⟩

end Cesium

namespace Cesium

/-- C1: For every well-formed raw schema object, the constructed schema's
enum and class tables contain exactly the keys of the input's mappings (no
key added, none omitted, own keys only), and an absent `enums` or `classes`
field yields an empty table. -/
theorem metadataSchema_key_sets (h : Heap) (oid : Nat) (r : RawSchema)
    (s : MetadataSchema) (h' : Heap) (oid' : Nat)
    (_hwf : r.wellFormed = true)
    (hok : MetadataSchema.make h oid (RawInput.obj r) = Except.ok (s, h', oid')) :
    s._enums.map Prod.fst = ownKeysOpt r.enums
    ∧ s._classes.map Prod.fst = ownKeysOpt r.classes
    ∧ (r.enums = none → s._enums = [])
    ∧ (r.classes = none → s._classes = []) := by
  obtain ⟨he, hc, -, -, -⟩ := make_ok_elim hok
  have h1 := (buildEnums_ok he).1
  have h2 := (buildClasses_ok hc).1
  refine ⟨h1, h2, ?_, ?_⟩
  · intro hen
    rw [hen] at h1
    simp only [ownKeysOpt] at h1
    exact List.map_eq_nil_iff.mp h1
  · intro hcl
    rw [hcl] at h2
    simp only [ownKeysOpt] at h2
    exact List.map_eq_nil_iff.mp h2

/-- Witness for C1 at the concrete `sampleRaw` input. -/
theorem metadataSchema_key_sets_witness :
    sampleRaw.wellFormed = true
    ∧ MetadataSchema.make [] 0 (RawInput.obj sampleRaw) = Except.ok (sampleSchema, [], 2)
    ∧ sampleSchema._enums.map Prod.fst = ["colors"]
    ∧ sampleSchema._classes.map Prod.fst = ["tree"] := by
  have hwf : sampleRaw.wellFormed = true := by rfl
  have hok : MetadataSchema.make [] 0 (RawInput.obj sampleRaw)
      = Except.ok (sampleSchema, [], 2) := by rfl
  have hres := metadataSchema_key_sets [] 0 sampleRaw sampleSchema [] 2 hwf hok
  exact ⟨hwf, hok, hres.1, hres.2.1⟩

/-- C2: Construction is two-pass in strict order: the enum table is the
result of running the Enum Table Builder alone with the initial identity
counter; the class table is then built from the complete enum table; every
constructed class holds that entire enum mapping; and the Class unit
resolves any enum-typed property by identifier lookup in the supplied
mapping. -/
theorem metadataSchema_two_pass (h : Heap) (oid : Nat) (r : RawSchema)
    (s : MetadataSchema) (h' : Heap) (oid' : Nat)
    (_hwf : r.wellFormed = true)
    (hok : MetadataSchema.make h oid (RawInput.obj r) = Except.ok (s, h', oid')) :
    buildEnums r.enums oid = Except.ok (s._enums, oid + s._enums.length)
    ∧ buildClasses r.classes s._enums (oid + s._enums.length) = Except.ok (s._classes, oid')
    ∧ (∀ p ∈ s._classes, p.2.enums = s._enums)
    ∧ (∀ (oid₀ : Nat) (cid : String) (raw : RawClassDef)
        (etbl : List (String × MetadataEnum)) (c : MetadataClass),
        MetadataClass.make oid₀ cid raw etbl = Except.ok c →
        c.enums = etbl
        ∧ (∀ pn rp, (pn, rp) ∈ raw.properties → ∀ eid, rp.enumType = some eid →
            ∃ en, List.lookup eid etbl = some en ∧ (pn, some en) ∈ c.properties)) := by
  obtain ⟨he, hc, -, -, -⟩ := make_ok_elim hok
  refine ⟨he, hc, (buildClasses_ok hc).2.2.2, ?_⟩
  intro oid₀ cid raw etbl c hmk
  exact ⟨(metadataClass_make_ok hmk).2.2.1, (metadataClass_make_ok hmk).2.2.2⟩

/-- Witness for C2 at the concrete `sampleRaw` input: the enum table is
built first with counter 0, the class is built with the entire enum table,
and the `species` property resolves to the constructed enum. -/
theorem metadataSchema_two_pass_witness :
    sampleRaw.wellFormed = true
    ∧ buildEnums sampleRaw.enums 0 = Except.ok ([("colors", sampleEnum)], 1)
    ∧ buildClasses sampleRaw.classes [("colors", sampleEnum)] 1
        = Except.ok ([("tree", sampleClass)], 2)
    ∧ sampleClass.enums = [("colors", sampleEnum)]
    ∧ (∃ en, List.lookup "colors" [("colors", sampleEnum)] = some en
        ∧ ("species", some en) ∈ sampleClass.properties) := by
  have hwf : sampleRaw.wellFormed = true := by rfl
  have hok : MetadataSchema.make [] 0 (RawInput.obj sampleRaw)
      = Except.ok (sampleSchema, [], 2) := by rfl
  have hres := metadataSchema_two_pass [] 0 sampleRaw sampleSchema [] 2 hwf hok
  have hmem : ("tree", sampleClass) ∈ sampleSchema._classes := List.mem_cons_self _ _
  have hcls := hres.2.2.1 ("tree", sampleClass) hmem
  have hmk : MetadataClass.make 1 "tree"
      { properties := [("species", { enumType := some "colors" }),
                       ("height", { enumType := none })] }
      [("colors", sampleEnum)] = Except.ok sampleClass := by rfl
  have hray := hres.2.2.2 1 "tree"
      { properties := [("species", { enumType := some "colors" }),
                       ("height", { enumType := none })] }
      [("colors", sampleEnum)] sampleClass hmk
  have hprop := hray.2 "species" { enumType := some "colors" }
      (List.mem_cons_self _ _) "colors" rfl
  exact ⟨hwf, hres.1, hres.2.1, hcls, hprop⟩

/-- C9: Only own enumerable properties of the input mappings populate the
tables: a key reachable only through the prototype chain of the `enums` or
`classes` mapping produces no Enum or Class entry. -/
theorem metadataSchema_ignores_inherited_keys (h : Heap) (oid : Nat) (r : RawSchema)
    (s : MetadataSchema) (h' : Heap) (oid' : Nat) (k : String)
    (_hwf : r.wellFormed = true)
    (hok : MetadataSchema.make h oid (RawInput.obj r) = Except.ok (s, h', oid')) :
    (∀ m, r.enums = some m → k ∈ m.proto.map Prod.fst → k ∉ ownKeys m →
      List.lookup k s._enums = none)
    ∧ (∀ m, r.classes = some m → k ∈ m.proto.map Prod.fst → k ∉ ownKeys m →
      List.lookup k s._classes = none) := by
  obtain ⟨he, hc, -, -, -⟩ := make_ok_elim hok
  have h1 := (buildEnums_ok he).1
  have h2 := (buildClasses_ok hc).1
  constructor
  · intro m hm _ hkn
    apply lookup_eq_none_of_not_mem_keys
    intro hmem
    rw [h1, hm] at hmem
    simp only [ownKeysOpt] at hmem
    exact hkn hmem
  · intro m hm _ hkn
    apply lookup_eq_none_of_not_mem_keys
    intro hmem
    rw [h2, hm] at hmem
    simp only [ownKeysOpt] at hmem
    exact hkn hmem

/-- Witness for C9 at the concrete `protoRaw` input, whose mappings carry
the inherited keys `inheritedEnum` and `inheritedClass`. -/
theorem metadataSchema_ignores_inherited_keys_witness :
    protoRaw.wellFormed = true
    ∧ MetadataSchema.make [] 0 (RawInput.obj protoRaw) = Except.ok (protoSchema, [], 2)
    ∧ List.lookup "inheritedEnum" protoSchema._enums = none
    ∧ List.lookup "inheritedClass" protoSchema._classes = none := by
  have hwf : protoRaw.wellFormed = true := by rfl
  have hok : MetadataSchema.make [] 0 (RawInput.obj protoRaw)
      = Except.ok (protoSchema, [], 2) := by rfl
  have hres1 := (metadataSchema_ignores_inherited_keys [] 0 protoRaw protoSchema [] 2
    "inheritedEnum" hwf hok).1 protoEnumsMap rfl (by decide) (by decide)
  have hres2 := (metadataSchema_ignores_inherited_keys [] 0 protoRaw protoSchema [] 2
    "inheritedClass" hwf hok).2 protoClassesMap rfl (by decide) (by decide)
  exact ⟨hwf, hok, hres1, hres2⟩

end Cesium

namespace Cesium

/-- C3: When `extras` is present, the schema's extras is a deep copy:
writing any node to any address that existed before construction never
changes the value observed through `schema.extras`, and that observed value
is the denotation of the caller's payload at construction time. -/
theorem metadataSchema_extras_deep_copy (h : Heap) (oid : Nat) (r : RawSchema) (aIn : Addr)
    (s : MetadataSchema) (h' : Heap) (oid' : Nat)
    (hex : r.extras = some aIn)
    (hok : MetadataSchema.make h oid (RawInput.obj r) = Except.ok (s, h', oid')) :
    (∀ (a : Addr) (n : Node) (f : Nat), a < h.length →
      MetadataSchema.extrasValue s (h'.set a n) f = MetadataSchema.extrasValue s h' f)
    ∧ (∀ f : Nat, MetadataSchema.extrasValue s h' f = denoteF f h aIn) := by
  obtain ⟨-, -, -, -, hx⟩ := make_ok_elim hok
  rcases hx with ⟨hnone, -, -⟩ | ⟨a, ha, hsa, hh⟩
  · rw [hnone] at hex
    cases hex
  · rw [ha] at hex
    injection hex with haa
    subst haa
    subst hh
    constructor
    · intro a' n f ha'
      simp only [MetadataSchema.extrasValue, hsa]
      have hagree := @denote_agree h.length (h ++ h.map (shiftNode h.length))
        ((h ++ h.map (shiftNode h.length)).set a' n)
        (fun b hb => (set_agree ha' b hb).symm)
        (fun b flds hb hget => clone_closed hb hget)
        f (h.length + a) (Nat.le_add_right _ _)
      exact hagree.symm
    · intro f
      simp only [MetadataSchema.extrasValue, hsa]
      exact clone_denote h f a

/-- Witness for C3: the payload `{x: 1}` at address 1 of `extrasHeap` is
copied; overwriting the caller's cell 0 afterwards leaves the observed
extras value `{x: 1}` unchanged. -/
theorem metadataSchema_extras_deep_copy_witness :
    extrasRaw.extras = some 1
    ∧ MetadataSchema.make extrasHeap 0 (RawInput.obj extrasRaw)
        = Except.ok (extrasSchema, extrasHeapAfter, 0)
    ∧ MetadataSchema.extrasValue extrasSchema (extrasHeapAfter.set 0 (Node.numN 99)) 2
        = MetadataSchema.extrasValue extrasSchema extrasHeapAfter 2
    ∧ MetadataSchema.extrasValue extrasSchema extrasHeapAfter 2
        = some (JSVal.obj [("x", JSVal.num 1)]) := by
  have hok : MetadataSchema.make extrasHeap 0 (RawInput.obj extrasRaw)
      = Except.ok (extrasSchema, extrasHeapAfter, 0) := by rfl
  have hres := metadataSchema_extras_deep_copy extrasHeap 0 extrasRaw 1 extrasSchema
      extrasHeapAfter 0 rfl hok
  exact ⟨rfl, hok, hres.1 0 (Node.numN 99) 2 (by decide), by rfl⟩

/-- C8: Two constructions from structurally identical well-formed raw
inputs yield schemas with equal class and enum key sequences and equal
observed extras content, while every Enum and Class instance of the first
schema is distinct (by object identity) from every one of the second. -/
theorem metadataSchema_roundtrip (h : Heap) (oid : Nat) (r₁ r₂ : RawSchema)
    (s₁ : MetadataSchema) (h₁ : Heap) (oid₁ : Nat)
    (s₂ : MetadataSchema) (h₂ : Heap) (oid₂ : Nat)
    (_hwf : r₁.wellFormed = true)
    (he : r₁.enums = r₂.enums) (hc : r₁.classes = r₂.classes)
    (hok₁ : MetadataSchema.make h oid (RawInput.obj r₁) = Except.ok (s₁, h₁, oid₁))
    (hok₂ : MetadataSchema.make h₁ oid₁ (RawInput.obj r₂) = Except.ok (s₂, h₂, oid₂)) :
    s₁._enums.map Prod.fst = s₂._enums.map Prod.fst
    ∧ s₁._classes.map Prod.fst = s₂._classes.map Prod.fst
    ∧ (∀ (f : Nat) (v : JSVal) (a₁ a₂ : Addr),
        r₁.extras = some a₁ → r₂.extras = some a₂ →
        denoteF f h a₁ = some v → denoteF f h a₂ = some v →
        MetadataSchema.extrasValue s₁ h₂ f = some v
        ∧ MetadataSchema.extrasValue s₂ h₂ f = some v)
    ∧ (∀ p ∈ s₁._enums, ∀ q ∈ s₂._enums, p.2.oid ≠ q.2.oid)
    ∧ (∀ p ∈ s₁._classes, ∀ q ∈ s₂._classes, p.2.oid ≠ q.2.oid) := by
  obtain ⟨he₁, hc₁, -, -, hx₁⟩ := make_ok_elim hok₁
  obtain ⟨he₂, hc₂, -, -, hx₂⟩ := make_ok_elim hok₂
  have k₁ := (buildEnums_ok he₁).1
  have k₂ := (buildEnums_ok he₂).1
  have kc₁ := (buildClasses_ok hc₁).1
  have kc₂ := (buildClasses_ok hc₂).1
  obtain ⟨-, her₁, hcr₁⟩ := make_oid_range hok₁
  obtain ⟨-, her₂, hcr₂⟩ := make_oid_range hok₂
  refine ⟨?_, ?_, ?_, ?_, ?_⟩
  · rw [k₁, k₂, he]
  · rw [kc₁, kc₂, hc]
  · intro f v a₁' a₂' hex₁ hex₂ hd₁ hd₂
    rcases hx₁ with ⟨hn₁, -, -⟩ | ⟨b₁, hb₁, hsa₁, hh₁⟩
    · rw [hn₁] at hex₁
      cases hex₁
    · rcases hx₂ with ⟨hn₂, -, -⟩ | ⟨b₂, hb₂, hsa₂, hh₂⟩
      · rw [hn₂] at hex₂
        cases hex₂
      · rw [hb₁] at hex₁
        injection hex₁ with hba₁
        subst hba₁
        rw [hb₂] at hex₂
        injection hex₂ with hba₂
        subst hba₂
        constructor
        · simp only [MetadataSchema.extrasValue, hsa₁]
          subst hh₂
          subst hh₁
          apply denote_append
          rw [clone_denote h f b₁]
          exact hd₁
        · simp only [MetadataSchema.extrasValue, hsa₂]
          subst hh₂
          rw [clone_denote h₁ f b₂]
          subst hh₁
          apply denote_append
          exact hd₂
  · intro p hp q hq
    have r1 := her₁ p hp
    have r2 := her₂ q hq
    omega
  · intro p hp q hq
    have r1 := hcr₁ p hp
    have r2 := hcr₂ q hq
    omega

/-- Witness for C8: the same raw content built twice (extras payloads at
addresses 0 and 1 of `twinHeap`, both the number 7) gives equal key sets,
equal observed extras values, and enums with distinct object identities 0
and 2. -/
theorem metadataSchema_roundtrip_witness :
    twinRaw1.wellFormed = true
    ∧ MetadataSchema.make twinHeap 0 (RawInput.obj twinRaw1)
        = Except.ok (twinSchema1, twinHeap1, 2)
    ∧ MetadataSchema.make twinHeap1 2 (RawInput.obj twinRaw2)
        = Except.ok (twinSchema2, twinHeap2, 4)
    ∧ twinSchema1._enums.map Prod.fst = twinSchema2._enums.map Prod.fst
    ∧ MetadataSchema.extrasValue twinSchema1 twinHeap2 1 = some (JSVal.num 7)
    ∧ MetadataSchema.extrasValue twinSchema2 twinHeap2 1 = some (JSVal.num 7)
    ∧ sampleEnum.oid ≠ twinEnum2.oid := by
  have hok₁ : MetadataSchema.make twinHeap 0 (RawInput.obj twinRaw1)
      = Except.ok (twinSchema1, twinHeap1, 2) := by rfl
  have hok₂ : MetadataSchema.make twinHeap1 2 (RawInput.obj twinRaw2)
      = Except.ok (twinSchema2, twinHeap2, 4) := by rfl
  have hres := metadataSchema_roundtrip twinHeap 0 twinRaw1 twinRaw2 twinSchema1 twinHeap1 2
      twinSchema2 twinHeap2 4 (by rfl) rfl rfl hok₁ hok₂
  have hx := hres.2.2.1 1 (JSVal.num 7) 0 1 rfl rfl (by rfl) (by rfl)
  have hoid := hres.2.2.2.1 ("colors", sampleEnum) (by decide)
      ("colors", twinEnum2) (by decide)
  exact ⟨by rfl, hok₁, hok₂, hres.1, hx.1, hx.2, hoid⟩

end Cesium
